import Mathlib

set_option linter.unusedVariables false
set_option maxHeartbeats 1000000

/-!
Shallow embedding of the PDF visual-content extraction pipeline
(`src/pdf/pdf.service.ts`) and proofs about its specified properties.

JavaScript numbers are idealised as exact rationals (`ℚ`); `Math.round`
is round-half-toward-positive-infinity, `Math.floor`/`Math.min`/`Math.max`
are the usual operations.  All integer-valued quantities produced by the
code (pixel coordinates, counters, retry delays) are modelled as `ℤ`/`ℕ`.
-/

namespace PdfExtract

/-- JavaScript `Math.round` on an idealised (rational) number:
round half toward positive infinity, `Math.round x = ⌊x + 1/2⌋`. -/
def jsRound (x : ℚ) : ℤ := ⌊x + 1/2⌋

theorem jsRound_le {x : ℚ} {n : ℤ} (h : x ≤ (n : ℚ)) : jsRound x ≤ n := by
  have hlt : x + 1/2 < ((n + 1 : ℤ) : ℚ) := by push_cast; linarith
  have := Int.floor_lt.mpr hlt
  unfold jsRound
  omega

theorem le_jsRound {x : ℚ} {n : ℤ} (h : (n : ℚ) ≤ x) : n ≤ jsRound x := by
  have : (n : ℚ) ≤ x + 1/2 := by linarith
  exact Int.le_floor.mpr this

theorem jsRound_nonneg {x : ℚ} (h : 0 ≤ x) : 0 ≤ jsRound x :=
  le_jsRound (by exact_mod_cast h)

/-! ## The Summarizer's text-completion call (`PdfService.callMistral`)

`callMistral(text, retries = 3, backoff = 1000)` first fails immediately
when the API key is missing, then runs a `for` loop over
`attempt = 1 .. retries`.  Each iteration performs a `fetch`; the whole
iteration body sits in a `try` whose `catch` logs the error and, unless
`attempt === retries`, sleeps `backoff * attempt` ms and lets the loop
continue; at the last attempt it throws the final `HttpException`. -/

/-- Outcome of one fetch attempt as observed by `callMistral`:
a non-ok HTTP status, an ok response whose content does not yield the
expected JSON (`JSON.parse` throws, or the parsed object lacks
`title`/`description` so `.trim()` throws — both are caught by the same
`catch`), or an ok response parsed into a title and description. -/
inductive FetchOutcome where
  | httpError (status : Nat)
  | parseFail
  | success (title description : String)
deriving DecidableEq

/-- Result of `callMistral`: the returned record or the thrown
`HttpException` message. -/
inductive MistralResult where
  | ok (title description : String)
  | err (msg : String)
deriving DecidableEq

def retriesExhaustedMsg : String :=
  "Failed to get title/description from Mistral after retries"

def missingKeyMsg : String := "Missing MISTRAL_API_KEY"

/-- The retry loop of `callMistral`.  `resp attempt` is the outcome of the
fetch performed at attempt number `attempt` (1-based); `fuel` is the number
of loop iterations still permitted (`retries - attempt + 1`), and when it
reaches zero the loop exits and the code returns the empty title and
description (the line the source marks `// Unreachable`).  The first
component records every awaited delay (in ms), in order:

* ok response parsed successfully: return the trimmed fields;
* HTTP 429 with `attempt < retries`: sleep `backoff * attempt`, continue;
* any other non-ok status: `throw` — the `catch` then either raises the
  final error (`attempt === retries`) or sleeps `backoff * attempt` and
  continues;
* parse failure: `throw` — handled by the same `catch` in the same way. -/
def callMistralLoop (resp : Nat → FetchOutcome) (retries backoff : Nat) :
    Nat → Nat → List Nat × MistralResult
  | _, 0 => ([], .ok ("") (""))
  | attempt, fuel + 1 =>
    match resp attempt with
    | .success t d => ([], .ok t.trim d.trim)
    | .httpError s =>
      if s = 429 ∧ attempt < retries then
        let r := callMistralLoop resp retries backoff (attempt + 1) fuel
        (backoff * attempt :: r.1, r.2)
      else if attempt = retries then ([], .err retriesExhaustedMsg)
      else
        let r := callMistralLoop resp retries backoff (attempt + 1) fuel
        (backoff * attempt :: r.1, r.2)
    | .parseFail =>
      if attempt = retries then ([], .err retriesExhaustedMsg)
      else
        let r := callMistralLoop resp retries backoff (attempt + 1) fuel
        (backoff * attempt :: r.1, r.2)

/-- Model of `PdfService.callMistral`: missing-key check, then the retry loop
starting at attempt 1. -/
def callMistral (hasKey : Bool) (resp : Nat → FetchOutcome)
    (retries backoff : Nat) : List Nat × MistralResult :=
  if hasKey then callMistralLoop resp retries backoff 1 retries
  else ([], .err missingKeyMsg)

/-- A failing attempt strictly before the retry ceiling — whatever the kind
of failure — sleeps `backoff * attempt` and continues with the next
attempt. -/
theorem callMistralLoop_retry (resp : Nat → FetchOutcome)
    (retries backoff attempt fuel : Nat)
    (hfail : ∀ t d, resp attempt ≠ .success t d)
    (hlt : attempt < retries) :
    callMistralLoop resp retries backoff attempt (fuel + 1) =
      (backoff * attempt ::
        (callMistralLoop resp retries backoff (attempt + 1) fuel).1,
       (callMistralLoop resp retries backoff (attempt + 1) fuel).2) := by
  conv_lhs => rw [callMistralLoop]
  cases h : resp attempt with
  | success t d => exact absurd h (hfail t d)
  | httpError s =>
    by_cases hs : s = 429
    · simp only [hs, hlt, and_true, if_pos]
    · have hne : attempt ≠ retries := Nat.ne_of_lt hlt
      simp only [hs, false_and, if_false, hne, if_neg, not_false_iff]
  | parseFail =>
    have hne : attempt ≠ retries := Nat.ne_of_lt hlt
    simp only [hne, if_neg, not_false_iff]

/-- A failing attempt at the retry ceiling raises the final error with no
further delay. -/
theorem callMistralLoop_exhausted (resp : Nat → FetchOutcome)
    (retries backoff fuel : Nat)
    (hfail : ∀ t d, resp retries ≠ .success t d) :
    callMistralLoop resp retries backoff retries (fuel + 1) =
      ([], .err retriesExhaustedMsg) := by
  conv_lhs => rw [callMistralLoop]
  cases h : resp retries with
  | success t d => exact absurd h (hfail t d)
  | httpError s =>
    have hno : ¬ (s = 429 ∧ retries < retries) := by omega
    simp [hno]
  | parseFail => simp

/-- An attempt outcome that makes the loop body fail (throw or retry):
a non-ok HTTP status or a JSON parse failure. -/
def isFail : FetchOutcome → Bool
  | .success _ _ => false
  | _ => true

theorem isFail_ne_success {o : FetchOutcome} (h : isFail o = true) :
    ∀ t d, o ≠ .success t d := by
  intro t d hc
  subst hc
  simp [isFail] at h

theorem callMistralLoop_success (resp : Nat → FetchOutcome)
    (retries backoff attempt fuel : Nat) (t d : String)
    (h : resp attempt = .success t d) :
    callMistralLoop resp retries backoff attempt (fuel + 1) =
      ([], .ok t.trim d.trim) := by
  conv_lhs => rw [callMistralLoop]
  rw [h]

def c1Resp : Nat → FetchOutcome := fun n =>
  if n = 1 then .httpError 500 else .success ("T") ("D")

/-- C1 counterexample: with retries = 3 and base delay 1000 ms, an HTTP 500
(a non-success status other than 429) on the first attempt does NOT make the
call fail without further attempts — the loop sleeps 1000 ms and retries, and
the call succeeds on the second attempt.  This refutes the claim that only
rate-limited (429) responses are retried. -/
theorem C1_counterexample :
    callMistral true c1Resp 3 1000 = ([1000], .ok (("T").trim) (("D").trim)) := by
  have hcall : callMistral true c1Resp 3 1000 = callMistralLoop c1Resp 3 1000 1 3 := by
    simp [callMistral]
  rw [hcall,
    callMistralLoop_retry c1Resp 3 1000 1 2 (isFail_ne_success (by decide)) (by omega),
    callMistralLoop_success c1Resp 3 1000 2 1 ("T") ("D") (by decide)]

/-- C1 (amended): for `callMistral` with retries = 3 and base delay 1000 ms,
an HTTP 429 on attempt n < 3 does cause a retry after a delay of n × 1000 ms —
but so does EVERY other failing attempt before the third: any non-success
HTTP status (not only 429) and any JSON parse failure are retried with the
same linear backoff, and the call fails with the final `HttpException` only
when the third attempt also fails (or, with no attempt at all, when the API
key is missing). -/
theorem C1_retry_schedule (resp : Nat → FetchOutcome) :
    (∀ t d, resp 1 = .success t d →
        callMistral true resp 3 1000 = ([], .ok t.trim d.trim)) ∧
    (isFail (resp 1) = true → ∀ t d, resp 2 = .success t d →
        callMistral true resp 3 1000 = ([1000], .ok t.trim d.trim)) ∧
    (isFail (resp 1) = true → isFail (resp 2) = true →
        ∀ t d, resp 3 = .success t d →
        callMistral true resp 3 1000 = ([1000, 2000], .ok t.trim d.trim)) ∧
    (isFail (resp 1) = true → isFail (resp 2) = true → isFail (resp 3) = true →
        callMistral true resp 3 1000 = ([1000, 2000], .err retriesExhaustedMsg)) ∧
    (∀ retries backoff, callMistral false resp retries backoff =
        ([], .err missingKeyMsg)) := by
  have hcall : callMistral true resp 3 1000 = callMistralLoop resp 3 1000 1 3 := by
    simp [callMistral]
  refine ⟨?_, ?_, ?_, ?_, ?_⟩
  · intro t d h1
    rw [hcall, callMistralLoop_success resp 3 1000 1 2 t d h1]
  · intro hf1 t d h2
    rw [hcall, callMistralLoop_retry resp 3 1000 1 2 (isFail_ne_success hf1) (by omega),
      callMistralLoop_success resp 3 1000 2 1 t d h2]
  · intro hf1 hf2 t d h3
    rw [hcall, callMistralLoop_retry resp 3 1000 1 2 (isFail_ne_success hf1) (by omega),
      callMistralLoop_retry resp 3 1000 2 1 (isFail_ne_success hf2) (by omega),
      callMistralLoop_success resp 3 1000 3 0 t d h3]
  · intro hf1 hf2 hf3
    rw [hcall, callMistralLoop_retry resp 3 1000 1 2 (isFail_ne_success hf1) (by omega),
      callMistralLoop_retry resp 3 1000 2 1 (isFail_ne_success hf2) (by omega),
      callMistralLoop_exhausted resp 3 1000 0 (isFail_ne_success hf3)]
  · intro retries backoff
    simp [callMistral]

/-- Witness for the amended C1 theorem at a concrete input: the response
sequence 429, 429, success (the spec scenario "429 twice then succeeds")
yields the third attempt's content after delays of 1000 ms and 2000 ms. -/
theorem C1_retry_schedule_witness :
    callMistral true
        (fun n => if n ≤ 2 then .httpError 429 else .success ("T") ("D"))
        3 1000 = ([1000, 2000], .ok (("T").trim) (("D").trim)) :=
  (C1_retry_schedule
    (fun n => if n ≤ 2 then .httpError 429 else .success ("T") ("D"))).2.2.1
    (by decide) (by decide) ("T") ("D") (by decide)

/-! ## The ConcurrencyManager (`class ConcurrencyManager`)

`runTask` executes synchronously up to its first `await`: if
`running >= maxConcurrent` it pushes a resolver onto `queue` and suspends;
otherwise it increments `running` at once and runs the task.  The `finally`
block decrements `running` and, if the queue is non-empty, shifts the oldest
resolver and calls it — which only SCHEDULES the waiter's continuation
(`running++` and the task body) as a microtask; the continuation runs later.
We model each synchronous block as one labelled step of a state machine:
`call id` is the synchronous prefix of a new `runTask` call, `finish id` is
an active task's `finally` block, and `wake` runs the continuation of the
oldest resolved waiter. -/

structure CMState where
  maxConcurrent : Nat
  /-- the `running` counter -/
  running : Nat
  /-- resolvers in `queue`, oldest first -/
  queue : List Nat
  /-- waiters whose resolver has been called but whose continuation has not
  yet run (scheduled microtasks, oldest first) -/
  scheduled : List Nat
  /-- callers that have incremented `running` and not yet finished -/
  active : List Nat
deriving DecidableEq

inductive CMEvent where
  | call (id : Nat)
  | finish (id : Nat)
  | wake
deriving DecidableEq

def cmInit (limit : Nat) : CMState :=
  { maxConcurrent := limit, running := 0, queue := [], scheduled := [], active := [] }

def cmStep (s : CMState) (e : CMEvent) : Option CMState :=
  match e with
  | .call id =>
    if s.maxConcurrent ≤ s.running then
      some { s with queue := s.queue ++ [id] }
    else
      some { s with running := s.running + 1, active := s.active ++ [id] }
  | .finish id =>
    if id ∈ s.active then
      let s1 := { s with running := s.running - 1, active := s.active.erase id }
      match s1.queue with
      | [] => some s1
      | w :: rest =>
        some { s1 with queue := rest, scheduled := s1.scheduled ++ [w] }
    else none
  | .wake =>
    match s.scheduled with
    | [] => none
    | w :: rest =>
      some { s with scheduled := rest, running := s.running + 1,
                    active := s.active ++ [w] }

def cmRun (limit : Nat) (evs : List CMEvent) : Option CMState :=
  evs.foldlM cmStep (cmInit limit)

/-- The event sequence that breaks the bound with limit 5: tasks 1–5 are
admitted, task 6 arrives and waits, task 1 finishes (resolving waiter 6),
task 7 arrives while waiter 6's continuation is still only scheduled and is
admitted immediately (`running = 4 < 5`), then waiter 6's continuation runs
and increments `running` to 6 without re-checking the limit. -/
def c2Trace : List CMEvent :=
  [.call 1, .call 2, .call 3, .call 4, .call 5, .call 6,
   .finish 1, .call 7, .wake]

/-- C2: the claimed concurrency bound is violated by the code.  The trace
`c2Trace` is a legal sequence of `runTask` calls and task completions under
the JavaScript event-loop semantics, yet it drives the manager constructed
with limit 5 into a state where six tasks have incremented `running` and not
finished (`running = 6 > 5`); the later caller 7 is also admitted before the
earlier-enqueued waiter 6, breaking FIFO admission. -/
theorem C2_limit_violation :
    cmRun 5 c2Trace =
      some { maxConcurrent := 5, running := 6, queue := [], scheduled := [],
             active := [2, 3, 4, 5, 7, 6] } ∧
    ∀ s, cmRun 5 c2Trace = some s → s.maxConcurrent < s.running := by
  refine ⟨by decide, ?_⟩
  intro s hs
  have : s = { maxConcurrent := 5, running := 6, queue := [], scheduled := [],
               active := [2, 3, 4, 5, 7, 6] } := by
    have h0 : cmRun 5 c2Trace =
        some { maxConcurrent := 5, running := 6, queue := [], scheduled := [],
               active := [2, 3, 4, 5, 7, 6] } := by decide
    rw [h0] at hs
    exact (Option.some.inj hs).symm
  rw [this]
  decide

/-! ## The annotation cache (`PdfService.annotate`)

`annotate(imgBuffer, type)` computes `cacheKey = type + "_" + md5(buffer)`,
returns `apiCache[cacheKey]` when present, and otherwise routes
`visionClient.annotateImage` through `visionApiManager.runTask`.  On success
the response object is stored under the key and returned; on failure the
`catch` block logs and returns `{}` WITHOUT storing anything.  The values
stored are always response objects (truthy), so the truthiness test
`if (this.apiCache[cacheKey])` is exactly key membership.  We model the
external call by an oracle indexed by the number of Vision calls made so
far, and count Vision-client and ConcurrencyManager invocations. -/

/-- Outcome of one `visionClient.annotateImage` call: the response object
(abstracted as a string) or a thrown error. -/
inductive VisionOutcome where
  | success (result : String)
  | failure (msg : String)
deriving DecidableEq

/-- What `annotate` returns: a response object, or the empty object `{}`
produced by the `catch` path. -/
inductive AnnotateResult where
  | result (r : String)
  | emptyObj
deriving DecidableEq

structure AnnotateState where
  /-- the `apiCache` map, as an association list from cache key to stored response -/
  apiCache : List (String × String)
  /-- number of `visionClient.annotateImage` invocations so far -/
  visionCalls : Nat
  /-- number of `visionApiManager.runTask` invocations so far -/
  gateCalls : Nat
deriving DecidableEq

/-- The cache key `type_bufferHash` of `annotate`. -/
def cacheKeyOf (type bufferHash : String) : String :=
  type ++ ("_") ++ bufferHash

/-- Model of `PdfService.annotate` for a fixed image/type, i.e. a fixed cache key. -/
def annotate (visionSvc : Nat → VisionOutcome) (s : AnnotateState)
    (cacheKey : String) : AnnotateState × AnnotateResult :=
  match s.apiCache.lookup cacheKey with
  | some r => (s, .result r)
  | none =>
    let s1 : AnnotateState :=
      { s with gateCalls := s.gateCalls + 1, visionCalls := s.visionCalls + 1 }
    match visionSvc s.visionCalls with
    | .success r => ({ s1 with apiCache := (cacheKey, r) :: s1.apiCache }, .result r)
    | .failure _ => (s1, .emptyObj)

def c3ExternFail : Nat → VisionOutcome := fun _ => .failure ("unavailable")

/-- C3 counterexample: when the first external call for a (hash, kind) pair
fails, `annotate` completes (returning `{}`) but caches nothing, so a second
`annotate` call with the same pair invokes the Vision client (and the
ConcurrencyManager) again — two external annotation calls are issued for one
(hash, kind) pair within one run, refuting "at most once per pair per run"
and "invokes neither the Vision client nor the ConcurrencyManager". -/
theorem C3_counterexample :
    ((annotate c3ExternFail
        (annotate c3ExternFail ⟨[], 0, 0⟩ (cacheKeyOf ("LOGO_DETECTION") ("h"))).1
        (cacheKeyOf ("LOGO_DETECTION") ("h"))).1.visionCalls = 2 ∧
     (annotate c3ExternFail
        (annotate c3ExternFail ⟨[], 0, 0⟩ (cacheKeyOf ("LOGO_DETECTION") ("h"))).1
        (cacheKeyOf ("LOGO_DETECTION") ("h"))).1.gateCalls = 2) ∧
    ¬ (2 ≤ 1) := by
  decide

/-- C3 (amended): after `annotate` has completed once SUCCESSFULLY for a
given (content hash, kind) pair, every later `annotate` call in any later
state of the same run returns the cached result and leaves the state — in
particular the Vision-client and ConcurrencyManager invocation counters —
unchanged; moreover the cache only ever grows, so a stored pair stays
stored for the rest of the run.  External calls are issued at most once per
pair per run only as long as the first call succeeds. -/
theorem C3_cached_success :
    (∀ (visionSvc : Nat → VisionOutcome) (s : AnnotateState) (k r : String),
        s.apiCache.lookup k = none → visionSvc s.visionCalls = .success r →
        (annotate visionSvc s k).1.apiCache.lookup k = some r ∧
        (annotate visionSvc s k).2 = .result r) ∧
    (∀ (visionSvc : Nat → VisionOutcome) (s : AnnotateState) (k r : String),
        s.apiCache.lookup k = some r →
        annotate visionSvc s k = (s, .result r)) ∧
    (∀ (visionSvc : Nat → VisionOutcome) (s : AnnotateState) (k r k2 : String),
        s.apiCache.lookup k = some r →
        (annotate visionSvc s k2).1.apiCache.lookup k = some r) := by
  refine ⟨?_, ?_, ?_⟩
  · intro visionSvc s k r hmiss hsucc
    unfold annotate
    rw [hmiss, hsucc]
    simp [List.lookup]
  · intro visionSvc s k r hhit
    unfold annotate
    rw [hhit]
  · intro visionSvc s k r k2 hhit
    unfold annotate
    cases h2 : s.apiCache.lookup k2 with
    | some r2 => exact hhit
    | none =>
      cases hx : visionSvc s.visionCalls with
      | success r2 =>
        have hne : k ≠ k2 := by
          intro he
          rw [he, h2] at hhit
          exact Option.noConfusion hhit
        simp [List.lookup, hne, hhit]
        rw [beq_eq_false_iff_ne.mpr hne]
      | failure m => exact hhit

/-- Witness for the amended C3 theorem at concrete inputs: a successful
first call stores the result, and a repeated call on the resulting state
returns it with the state unchanged. -/
theorem C3_cached_success_witness :
    ((annotate (fun _ => .success ("res")) ⟨[], 0, 0⟩ ("k")).1.apiCache.lookup ("k")
        = some ("res") ∧
     (annotate (fun _ => .success ("res")) ⟨[], 0, 0⟩ ("k")).2 = .result ("res")) ∧
    annotate (fun _ => .success ("other")) ⟨[(("k"), ("res"))], 1, 1⟩ ("k") =
      (⟨[(("k"), ("res"))], 1, 1⟩, .result ("res")) ∧
    (annotate (fun _ => .success ("other")) ⟨[(("k"), ("res"))], 1, 1⟩ ("k2")).1.apiCache.lookup ("k")
      = some ("res") := by
  refine ⟨(C3_cached_success).1 (fun _ => .success ("res")) ⟨[], 0, 0⟩ ("k") ("res")
      (by decide) (by decide),
    (C3_cached_success).2.1 (fun _ => .success ("other")) ⟨[(("k"), ("res"))], 1, 1⟩
      ("k") ("res") (by decide),
    (C3_cached_success).2.2 (fun _ => .success ("other")) ⟨[(("k"), ("res"))], 1, 1⟩
      ("k") ("res") ("k2") (by decide)⟩

def c4ExternFail : Nat → VisionOutcome := fun _ => .failure ("boom")

/-- C4 counterexample: on a cache miss whose external call fails, `annotate`
stores NOTHING — the cache after the call is still empty — and a subsequent
call with the same (hash, kind) pair issues another external request
(vision-call counter reaches 2), contradicting the claim that the result is
stored even when the call fails so that no second request is issued. -/
theorem C4_counterexample :
    (annotate c4ExternFail ⟨[], 0, 0⟩ (cacheKeyOf ("OBJECT_LOCALIZATION") ("h"))).1.apiCache
        = [] ∧
    (annotate c4ExternFail ⟨[], 0, 0⟩ (cacheKeyOf ("OBJECT_LOCALIZATION") ("h"))).2
        = .emptyObj ∧
    (annotate c4ExternFail
        (annotate c4ExternFail ⟨[], 0, 0⟩ (cacheKeyOf ("OBJECT_LOCALIZATION") ("h"))).1
        (cacheKeyOf ("OBJECT_LOCALIZATION") ("h"))).1.visionCalls = 2 := by
  decide

/-- C4 (amended): on a cache miss the result is stored only when the
external annotation call succeeds.  When it fails, `annotate` returns the
empty object with the cache unchanged (having spent one Vision call and one
gate admission), so a subsequent call with the same pair misses again and
issues another external request. -/
theorem C4_failure_not_cached (visionSvc : Nat → VisionOutcome)
    (s : AnnotateState) (k m : String)
    (hmiss : s.apiCache.lookup k = none)
    (hfail : visionSvc s.visionCalls = .failure m) :
    (annotate visionSvc s k).1.apiCache = s.apiCache ∧
    (annotate visionSvc s k).2 = .emptyObj ∧
    (annotate visionSvc s k).1.visionCalls = s.visionCalls + 1 ∧
    (annotate visionSvc s k).1.gateCalls = s.gateCalls + 1 ∧
    (annotate visionSvc (annotate visionSvc s k).1 k).1.visionCalls = s.visionCalls + 2 := by
  have hstep : ∀ s2 : AnnotateState, s2.apiCache.lookup k = none →
      (annotate visionSvc s2 k).1.visionCalls = s2.visionCalls + 1 := by
    intro s2 h2
    unfold annotate
    rw [h2]
    cases hx : visionSvc s2.visionCalls <;> rfl
  have h1 : annotate visionSvc s k =
      ({ s with gateCalls := s.gateCalls + 1, visionCalls := s.visionCalls + 1 },
       .emptyObj) := by
    unfold annotate
    rw [hmiss, hfail]
  rw [h1]
  refine ⟨rfl, rfl, rfl, rfl, ?_⟩
  exact hstep
    { s with gateCalls := s.gateCalls + 1, visionCalls := s.visionCalls + 1 } hmiss

/-- Witness for the amended C4 theorem at concrete inputs. -/
theorem C4_failure_not_cached_witness :
    (annotate c4ExternFail ⟨[], 0, 0⟩ ("k")).1.apiCache = [] ∧
    (annotate c4ExternFail ⟨[], 0, 0⟩ ("k")).2 = .emptyObj ∧
    (annotate c4ExternFail ⟨[], 0, 0⟩ ("k")).1.visionCalls = 0 + 1 ∧
    (annotate c4ExternFail ⟨[], 0, 0⟩ ("k")).1.gateCalls = 0 + 1 ∧
    (annotate c4ExternFail (annotate c4ExternFail ⟨[], 0, 0⟩ ("k")).1 ("k")).1.visionCalls
      = 0 + 2 :=
  C4_failure_not_cached c4ExternFail ⟨[], 0, 0⟩ ("k") ("boom") (by decide) (by decide)

/-! ## Bounding-box geometry (`PdfService.detectAndCropLogos`)

JS `Math.min(...xs)` / `Math.max(...xs)` over the spread of a non-empty
array (the code guards `verts.length < 3` before using them). -/

def listMinQ : List ℚ → ℚ
  | [] => 0
  | [x] => x
  | x :: y :: t => min x (listMinQ (y :: t))

def listMaxQ : List ℚ → ℚ
  | [] => 0
  | [x] => x
  | x :: y :: t => max x (listMaxQ (y :: t))

theorem listMinQ_nonneg {l : List ℚ} (h : ∀ x ∈ l, 0 ≤ x) : 0 ≤ listMinQ l := by
  induction l with
  | nil => simp [listMinQ]
  | cons x t ih =>
    cases t with
    | nil => simpa [listMinQ] using h x (by simp)
    | cons y u =>
      rw [listMinQ]
      exact le_min (h x (by simp)) (ih (fun z hz => h z (by simp [hz])))

theorem listMinQ_le {l : List ℚ} {B : ℚ} (hne : l ≠ []) (h : ∀ x ∈ l, x ≤ B) :
    listMinQ l ≤ B := by
  cases l with
  | nil => exact absurd rfl hne
  | cons x t =>
    cases t with
    | nil => simpa [listMinQ] using h x (by simp)
    | cons y u =>
      rw [listMinQ]
      exact le_trans (min_le_left _ _) (h x (by simp))

theorem listMaxQ_le {l : List ℚ} {B : ℚ} (hB : 0 ≤ B) (h : ∀ x ∈ l, x ≤ B) :
    listMaxQ l ≤ B := by
  induction l with
  | nil => simpa [listMaxQ]
  | cons x t ih =>
    cases t with
    | nil => simpa [listMaxQ] using h x (by simp)
    | cons y u =>
      rw [listMaxQ]
      exact max_le (h x (by simp)) (ih (fun z hz => h z (by simp [hz])))

theorem listMinQ_le_listMaxQ {l : List ℚ} (hne : l ≠ []) :
    listMinQ l ≤ listMaxQ l := by
  cases l with
  | nil => exact absurd rfl hne
  | cons x t =>
    cases t with
    | nil => simp [listMinQ, listMaxQ]
    | cons y u =>
      rw [listMinQ, listMaxQ]
      exact le_trans (min_le_left _ _) (le_max_left _ _)

/-- A pixel-space bounding box as assembled by `detectAndCropLogos`. -/
structure Box where
  left : ℤ
  top : ℤ
  width : ℤ
  height : ℤ
deriving DecidableEq

def boxArea (b : Box) : ℤ := b.width * b.height

/-- The geometry-clipping property of the spec: non-negative coordinates and
extents, contained within the image. -/
def inBounds (b : Box) (w h : ℤ) : Prop :=
  0 ≤ b.left ∧ 0 ≤ b.top ∧ 0 ≤ b.width ∧ 0 ≤ b.height ∧
  b.left + b.width ≤ w ∧ b.top + b.height ≤ h

instance decInBounds (b : Box) (w h : ℤ) : Decidable (inBounds b w h) := by
  unfold inBounds
  infer_instance

/-- Logo bounding box computed from the absolute polygon vertices of one
logo annotation (pdf.service.ts:827-839): clamp coordinates at 0 from
below, take vertex extents, pad by 5% of the smaller extent, clip to the
image.  `0.05` is idealised as the exact rational `5/100`. -/
def logoBox (verts : List (ℚ × ℚ)) (imgW imgH : ℤ) : Box :=
  let xs := verts.map fun v => max 0 v.1
  let ys := verts.map fun v => max 0 v.2
  let minX := listMinQ xs
  let minY := listMinQ ys
  let wF := listMaxQ xs - minX
  let hF := listMaxQ ys - minY
  let pad := min wF hF * (5 / 100)
  let left := max 0 (jsRound (minX - pad))
  let top := max 0 (jsRound (minY - pad))
  let width := min (imgW - left) (jsRound (wF + pad * 2))
  let height := min (imgH - top) (jsRound (hF + pad * 2))
  { left := left, top := top, width := width, height := height }

/-- Object bounding box computed from normalized vertices
(pdf.service.ts:898-909): clamp to [0, 1], scale by the image dimensions,
round, clip. -/
def objectBox (verts : List (ℚ × ℚ)) (W H : ℤ) : Box :=
  let xs := verts.map fun v => max 0 (min 1 v.1)
  let ys := verts.map fun v => max 0 (min 1 v.2)
  let minX := listMinQ xs
  let minY := listMinQ ys
  let maxX := listMaxQ xs
  let maxY := listMaxQ ys
  let left := max 0 (jsRound (minX * W))
  let top := max 0 (jsRound (minY * H))
  let width := min (W - left) (jsRound ((maxX - minX) * W))
  let height := min (H - top) (jsRound ((maxY - minY) * H))
  { left := left, top := top, width := width, height := height }

/-- The 10%-per-side padding applied to an accepted object box before it is
recorded and cropped (pdf.service.ts:941-946). -/
def paddedBox (b : Box) (W H : ℤ) : Box :=
  let padX := jsRound ((b.width : ℚ) * (1 / 10))
  let padY := jsRound ((b.height : ℚ) * (1 / 10))
  let paddedLeft := max 0 (b.left - padX)
  let paddedTop := max 0 (b.top - padY)
  let paddedWidth := min (W - paddedLeft) (b.width + padX * 2)
  let paddedHeight := min (H - paddedTop) (b.height + padY * 2)
  { left := paddedLeft, top := paddedTop, width := paddedWidth,
    height := paddedHeight }

/-- Common clipping pattern of `detectAndCropLogos`: a lower-clamped rounded
corner with a width clipped by `min (W - left)` is always inside the image,
provided the unrounded corner is ≤ the image dimension and the unrounded
extent is non-negative. -/
theorem clipContrib_inBounds (a b c d : ℚ) (W H : ℤ)
    (haW : a ≤ (W : ℚ)) (hbH : b ≤ (H : ℚ)) (hc : 0 ≤ c) (hd : 0 ≤ d)
    (hW : 0 ≤ W) (hH : 0 ≤ H) :
    inBounds
      { left := max 0 (jsRound a), top := max 0 (jsRound b),
        width := min (W - max 0 (jsRound a)) (jsRound c),
        height := min (H - max 0 (jsRound b)) (jsRound d) } W H := by
  have hleftW : max 0 (jsRound a) ≤ W := max_le hW (jsRound_le haW)
  have htopH : max 0 (jsRound b) ≤ H := max_le hH (jsRound_le hbH)
  have hwnn : 0 ≤ jsRound c := jsRound_nonneg hc
  have hhnn : 0 ≤ jsRound d := jsRound_nonneg hd
  unfold inBounds
  dsimp only
  omega

theorem logoBox_inBounds (verts : List (ℚ × ℚ)) (imgW imgH : ℤ)
    (hne : verts ≠ []) (hW : 0 ≤ imgW) (hH : 0 ≤ imgH)
    (hin : ∀ v ∈ verts, v.1 ≤ (imgW : ℚ) ∧ v.2 ≤ (imgH : ℚ)) :
    inBounds (logoBox verts imgW imgH) imgW imgH := by
  have hWq : (0 : ℚ) ≤ (imgW : ℚ) := by exact_mod_cast hW
  have hHq : (0 : ℚ) ≤ (imgH : ℚ) := by exact_mod_cast hH
  have hxne : verts.map (fun v => max 0 v.1) ≠ [] := by
    intro h
    exact hne (List.map_eq_nil_iff.mp h)
  have hyne : verts.map (fun v => max 0 v.2) ≠ [] := by
    intro h
    exact hne (List.map_eq_nil_iff.mp h)
  have hx0 : ∀ x ∈ verts.map (fun v => max 0 v.1), 0 ≤ x := by
    intro x hx
    obtain ⟨v, hv, rfl⟩ := List.mem_map.mp hx
    exact le_max_left _ _
  have hy0 : ∀ x ∈ verts.map (fun v => max 0 v.2), 0 ≤ x := by
    intro x hx
    obtain ⟨v, hv, rfl⟩ := List.mem_map.mp hx
    exact le_max_left _ _
  have hxW : ∀ x ∈ verts.map (fun v => max 0 v.1), x ≤ (imgW : ℚ) := by
    intro x hx
    obtain ⟨v, hv, rfl⟩ := List.mem_map.mp hx
    exact max_le hWq (hin v hv).1
  have hyH : ∀ x ∈ verts.map (fun v => max 0 v.2), x ≤ (imgH : ℚ) := by
    intro x hx
    obtain ⟨v, hv, rfl⟩ := List.mem_map.mp hx
    exact max_le hHq (hin v hv).2
  have hminx0 := listMinQ_nonneg hx0
  have hminy0 := listMinQ_nonneg hy0
  have hminxW := listMinQ_le hxne hxW
  have hminyH := listMinQ_le hyne hyH
  have hwF : 0 ≤ listMaxQ (verts.map fun v => max 0 v.1) -
      listMinQ (verts.map fun v => max 0 v.1) :=
    sub_nonneg.mpr (listMinQ_le_listMaxQ hxne)
  have hhF : 0 ≤ listMaxQ (verts.map fun v => max 0 v.2) -
      listMinQ (verts.map fun v => max 0 v.2) :=
    sub_nonneg.mpr (listMinQ_le_listMaxQ hyne)
  have hpad : 0 ≤ min
      (listMaxQ (verts.map fun v => max 0 v.1) -
        listMinQ (verts.map fun v => max 0 v.1))
      (listMaxQ (verts.map fun v => max 0 v.2) -
        listMinQ (verts.map fun v => max 0 v.2)) * (5 / 100) :=
    mul_nonneg (le_min hwF hhF) (by norm_num)
  exact clipContrib_inBounds
    (listMinQ (verts.map fun v => max 0 v.1) -
      min (listMaxQ (verts.map fun v => max 0 v.1) -
          listMinQ (verts.map fun v => max 0 v.1))
        (listMaxQ (verts.map fun v => max 0 v.2) -
          listMinQ (verts.map fun v => max 0 v.2)) * (5 / 100))
    (listMinQ (verts.map fun v => max 0 v.2) -
      min (listMaxQ (verts.map fun v => max 0 v.1) -
          listMinQ (verts.map fun v => max 0 v.1))
        (listMaxQ (verts.map fun v => max 0 v.2) -
          listMinQ (verts.map fun v => max 0 v.2)) * (5 / 100))
    ((listMaxQ (verts.map fun v => max 0 v.1) -
        listMinQ (verts.map fun v => max 0 v.1)) +
      min (listMaxQ (verts.map fun v => max 0 v.1) -
          listMinQ (verts.map fun v => max 0 v.1))
        (listMaxQ (verts.map fun v => max 0 v.2) -
          listMinQ (verts.map fun v => max 0 v.2)) * (5 / 100) * 2)
    ((listMaxQ (verts.map fun v => max 0 v.2) -
        listMinQ (verts.map fun v => max 0 v.2)) +
      min (listMaxQ (verts.map fun v => max 0 v.1) -
          listMinQ (verts.map fun v => max 0 v.1))
        (listMaxQ (verts.map fun v => max 0 v.2) -
          listMinQ (verts.map fun v => max 0 v.2)) * (5 / 100) * 2)
    imgW imgH (by linarith) (by linarith) (by linarith) (by linarith) hW hH

theorem objectBox_inBounds (verts : List (ℚ × ℚ)) (W H : ℤ)
    (hne : verts ≠ []) (hW : 0 ≤ W) (hH : 0 ≤ H) :
    inBounds (objectBox verts W H) W H := by
  have hWq : (0 : ℚ) ≤ (W : ℚ) := by exact_mod_cast hW
  have hHq : (0 : ℚ) ≤ (H : ℚ) := by exact_mod_cast hH
  have hxne : verts.map (fun v => max 0 (min 1 v.1)) ≠ [] := by
    intro h
    exact hne (List.map_eq_nil_iff.mp h)
  have hyne : verts.map (fun v => max 0 (min 1 v.2)) ≠ [] := by
    intro h
    exact hne (List.map_eq_nil_iff.mp h)
  have hx0 : ∀ x ∈ verts.map (fun v => max 0 (min 1 v.1)), 0 ≤ x := by
    intro x hx
    obtain ⟨v, hv, rfl⟩ := List.mem_map.mp hx
    exact le_max_left _ _
  have hy0 : ∀ x ∈ verts.map (fun v => max 0 (min 1 v.2)), 0 ≤ x := by
    intro x hx
    obtain ⟨v, hv, rfl⟩ := List.mem_map.mp hx
    exact le_max_left _ _
  have hx1 : ∀ x ∈ verts.map (fun v => max 0 (min 1 v.1)), x ≤ 1 := by
    intro x hx
    obtain ⟨v, hv, rfl⟩ := List.mem_map.mp hx
    exact max_le zero_le_one (min_le_left _ _)
  have hy1 : ∀ x ∈ verts.map (fun v => max 0 (min 1 v.2)), x ≤ 1 := by
    intro x hx
    obtain ⟨v, hv, rfl⟩ := List.mem_map.mp hx
    exact max_le zero_le_one (min_le_left _ _)
  have hminx1 := listMinQ_le hxne hx1
  have hminy1 := listMinQ_le hyne hy1
  have hminx0 := listMinQ_nonneg hx0
  have hminy0 := listMinQ_nonneg hy0
  have hdx : 0 ≤ (listMaxQ (verts.map fun v => max 0 (min 1 v.1)) -
      listMinQ (verts.map fun v => max 0 (min 1 v.1))) :=
    sub_nonneg.mpr (listMinQ_le_listMaxQ hxne)
  have hdy : 0 ≤ (listMaxQ (verts.map fun v => max 0 (min 1 v.2)) -
      listMinQ (verts.map fun v => max 0 (min 1 v.2))) :=
    sub_nonneg.mpr (listMinQ_le_listMaxQ hyne)
  exact clipContrib_inBounds
    (listMinQ (verts.map fun v => max 0 (min 1 v.1)) * W)
    (listMinQ (verts.map fun v => max 0 (min 1 v.2)) * H)
    ((listMaxQ (verts.map fun v => max 0 (min 1 v.1)) -
        listMinQ (verts.map fun v => max 0 (min 1 v.1))) * W)
    ((listMaxQ (verts.map fun v => max 0 (min 1 v.2)) -
        listMinQ (verts.map fun v => max 0 (min 1 v.2))) * H)
    W H
    (by calc listMinQ (verts.map fun v => max 0 (min 1 v.1)) * W
          ≤ 1 * W := mul_le_mul_of_nonneg_right hminx1 hWq
        _ = (W : ℚ) := one_mul _)
    (by calc listMinQ (verts.map fun v => max 0 (min 1 v.2)) * H
          ≤ 1 * H := mul_le_mul_of_nonneg_right hminy1 hHq
        _ = (H : ℚ) := one_mul _)
    (mul_nonneg hdx hWq) (mul_nonneg hdy hHq) hW hH

theorem paddedBox_inBounds (b : Box) (W H : ℤ) (hb : inBounds b W H) :
    inBounds (paddedBox b W H) W H := by
  obtain ⟨h1, h2, h3, h4, h5, h6⟩ := hb
  have hpx : 0 ≤ jsRound ((b.width : ℚ) * (1 / 10)) :=
    jsRound_nonneg (mul_nonneg (by exact_mod_cast h3) (by norm_num))
  have hpy : 0 ≤ jsRound ((b.height : ℚ) * (1 / 10)) :=
    jsRound_nonneg (mul_nonneg (by exact_mod_cast h4) (by norm_num))
  unfold paddedBox inBounds
  dsimp only
  omega

/-- C5: every bounding box computed by the feature detector is clipped to
the image bounds.  Logo boxes satisfy the property whenever the annotation
vertices lie within the image (the Vision API's contract for absolute
vertices; the code itself clamps only negative coordinates); object boxes
from normalized vertices satisfy it unconditionally thanks to the [0, 1]
clamp; and the 10% padding step preserves it.  In all cases
`0 ≤ left`, `0 ≤ top`, `left + width ≤ image width`,
`top + height ≤ image height`, and width and height are non-negative. -/
theorem C5_boxes_clipped :
    (∀ (verts : List (ℚ × ℚ)) (imgW imgH : ℤ), verts ≠ [] →
        0 ≤ imgW → 0 ≤ imgH →
        (∀ v ∈ verts, v.1 ≤ (imgW : ℚ) ∧ v.2 ≤ (imgH : ℚ)) →
        inBounds (logoBox verts imgW imgH) imgW imgH) ∧
    (∀ (verts : List (ℚ × ℚ)) (W H : ℤ), verts ≠ [] → 0 ≤ W → 0 ≤ H →
        inBounds (objectBox verts W H) W H) ∧
    (∀ (b : Box) (W H : ℤ), inBounds b W H →
        inBounds (paddedBox b W H) W H) :=
  ⟨logoBox_inBounds, objectBox_inBounds, paddedBox_inBounds⟩

/-- Witness for C5 at concrete inputs: a logo polygon inside a 100×80 page,
an object polygon in normalized coordinates on a 200×100 page, and the
padding of a 100×100 box at (50, 50) inside a 1000×1000 page. -/
theorem C5_boxes_clipped_witness :
    inBounds (logoBox [(10, 20), (30, 20), (30, 40)] 100 80) 100 80 ∧
    inBounds (objectBox [(1/10, 1/10), (1/2, 1/10), (1/2, 3/4)] 200 100) 200 100 ∧
    inBounds (paddedBox { left := 50, top := 50, width := 100, height := 100 }
      1000 1000) 1000 1000 :=
  ⟨C5_boxes_clipped.1 [(10, 20), (30, 20), (30, 40)] 100 80
      (by decide) (by decide) (by decide) (by decide),
   C5_boxes_clipped.2.1 [(1/10, 1/10), (1/2, 1/10), (1/2, 3/4)] 200 100
      (by decide) (by decide) (by decide),
   C5_boxes_clipped.2.2 { left := 50, top := 50, width := 100, height := 100 }
      1000 1000 (by decide)⟩

/-! ## Photo/object stage: overlap suppression (pdf.service.ts:861-979) -/

/-- Intersection area of a recorded `processedAreas` entry with a candidate
box (pdf.service.ts:925-933). -/
def overlapArea (area b : Box) : ℤ :=
  let xOverlap := max 0 (min (area.left + area.width) (b.left + b.width) -
    max area.left b.left)
  let yOverlap := max 0 (min (area.top + area.height) (b.top + b.height) -
    max area.top b.top)
  xOverlap * yOverlap

/-- The test `processedAreas.some(...)`: the candidate overlaps some recorded area in
more than 70% of the smaller of the two areas (`0.7` idealised as `7/10`). -/
def overlapsExisting (areas : List Box) (b : Box) : Bool :=
  areas.any fun area =>
    decide ((7 : ℚ) / 10 * min ((boxArea b : ℚ)) ((boxArea area : ℚ))
      < ((overlapArea area b : ℚ)))

theorem overlapsExisting_iff (areas : List Box) (b : Box) :
    overlapsExisting areas b = true ↔
      ∃ area ∈ areas,
        (7 : ℚ) / 10 * min ((boxArea b : ℚ)) ((boxArea area : ℚ))
          < ((overlapArea area b : ℚ)) := by
  simp [overlapsExisting, List.any_eq_true]

/-- One `localizedObjectAnnotations` entry: its normalized vertices, name
and confidence score. -/
structure ObjAnn where
  verts : List (ℚ × ℚ)
  name : String
  score : ℚ
deriving DecidableEq

def photoCategories : List String :=
  ["Person", "Human", "Man", "Woman", "Child", "People", "Group",
   "Photograph", "Picture frame", "Image", "Portrait", "Photo",
   "Animal", "Pet", "Dog", "Cat", "Bird", "Wildlife",
   "Scenery", "Landscape", "Building", "Architecture", "Landmark"]

/-- JS `String.prototype.includes` for a non-empty pattern (all entries of
`photoCategories` are non-empty). -/
def strIncludes (s pat : String) : Bool := 2 ≤ (s.splitOn pat).length

/-- The `isLikelyPhoto` classification (pdf.service.ts:890-892). -/
def isLikelyPhoto (ann : ObjAnn) : Bool :=
  photoCategories.any (fun cat => strIncludes ann.name.toLower cat.toLower) ||
    decide ((7 : ℚ) / 10 < ann.score)

/-- State of the object-annotation loop: recorded `processedAreas`, the
indices of annotations accepted past overlap suppression, and the indices
whose crops were successfully extracted and validated into `photos`. -/
structure PhotoState where
  areas : List Box
  accepted : List Nat
  photos : List Nat
deriving DecidableEq

/-- One iteration of the object-annotation loop (pdf.service.ts:881-975):
skip malformed geometry; skip detections neither category-matched nor
confident; compute the candidate box; skip small or extreme-aspect boxes;
skip candidates overlapping a recorded area by more than 70% of the smaller
area; otherwise record the padded box and, when the crop file is written
and passes validation (`cropOk idx`), push the photo. -/
def photoStep (W H : ℤ) (cropOk : Nat → Bool) (s : PhotoState)
    (idx : Nat) (ann : ObjAnn) : PhotoState :=
  if ann.verts.length < 3 then s
  else if isLikelyPhoto ann = false ∧ ann.score < 8 / 10 then s
  else
    let b := objectBox ann.verts W H
    if b.width < 50 ∨ b.height < 50 then s
    else if 5 < (b.width : ℚ) / (b.height : ℚ) ∨
        (b.width : ℚ) / (b.height : ℚ) < 1 / 5 then s
    else if overlapsExisting s.areas b = true then s
    else
      { areas := s.areas ++ [paddedBox b W H],
        accepted := s.accepted ++ [idx],
        photos := if cropOk idx = true then s.photos ++ [idx] else s.photos }

/-- The whole object-annotation loop over `entries()` of the annotation
list, starting from empty `processedAreas`/`photos`. -/
def photoLoop (W H : ℤ) (cropOk : Nat → Bool) (anns : List ObjAnn) : PhotoState :=
  anns.enum.foldl (fun s p => photoStep W H cropOk s p.1 p.2)
    { areas := [], accepted := [], photos := [] }

/-- The pre-overlap filters of the loop, i.e. the negations of its first
four guards. -/
def passesPreFilters (W H : ℤ) (ann : ObjAnn) : Prop :=
  ¬ ann.verts.length < 3 ∧
  ¬ (isLikelyPhoto ann = false ∧ ann.score < 8 / 10) ∧
  ¬ ((objectBox ann.verts W H).width < 50 ∨
      (objectBox ann.verts W H).height < 50) ∧
  ¬ (5 < ((objectBox ann.verts W H).width : ℚ) /
        ((objectBox ann.verts W H).height : ℚ) ∨
      ((objectBox ann.verts W H).width : ℚ) /
        ((objectBox ann.verts W H).height : ℚ) < 1 / 5)

instance decPassesPreFilters (W H : ℤ) (ann : ObjAnn) :
    Decidable (passesPreFilters W H ann) := by
  unfold passesPreFilters
  infer_instance

theorem scale_lt_iff (m o : ℤ) :
    ((7 : ℚ) / 10 * (m : ℚ) < (o : ℚ)) ↔ 7 * m < 10 * o := by
  rw [div_mul_eq_mul_div, div_lt_iff₀ (by norm_num : (0 : ℚ) < 10)]
  constructor
  · intro h
    have h2 : ((7 * m : ℤ) : ℚ) < ((10 * o : ℤ) : ℚ) := by push_cast; linarith
    exact_mod_cast h2
  · intro h
    have h2 : ((7 * m : ℤ) : ℚ) < ((10 * o : ℤ) : ℚ) := by exact_mod_cast h
    push_cast at h2
    linarith

theorem scale_le_iff (m o : ℤ) :
    ((7 : ℚ) / 10 * (m : ℚ) ≤ (o : ℚ)) ↔ 7 * m ≤ 10 * o := by
  rw [div_mul_eq_mul_div, div_le_iff₀ (by norm_num : (0 : ℚ) < 10)]
  constructor
  · intro h
    have h2 : ((7 * m : ℤ) : ℚ) ≤ ((10 * o : ℤ) : ℚ) := by push_cast; linarith
    exact_mod_cast h2
  · intro h
    have h2 : ((7 * m : ℤ) : ℚ) ≤ ((10 * o : ℤ) : ℚ) := by exact_mod_cast h
    push_cast at h2
    linarith

/-- A candidate that (whatever the earlier filters say) overlaps some
already-recorded area by more than 70% of the smaller area leaves the loop
state unchanged: it contributes neither a recorded area nor a photo. -/
theorem photoStep_discards (W H : ℤ) (cropOk : Nat → Bool) (s : PhotoState)
    (idx : Nat) (ann : ObjAnn)
    (hex : ∃ area ∈ s.areas,
      (7 : ℚ) / 10 * min ((boxArea (objectBox ann.verts W H) : ℚ))
          ((boxArea area : ℚ))
        < ((overlapArea area (objectBox ann.verts W H) : ℚ))) :
    photoStep W H cropOk s idx ann = s := by
  have hov : overlapsExisting s.areas (objectBox ann.verts W H) = true :=
    (overlapsExisting_iff s.areas (objectBox ann.verts W H)).mpr hex
  simp only [photoStep]
  split_ifs <;> rfl

/-- Geometric bounds for the padded box: it contains the original box, it
stays clipped, and—because the padding is at least 5 pixels per side for a
box of width and height ≥ 50—it extends strictly beyond every side of the
original box that is not already at the image border. -/
theorem paddedBox_facts (b : Box) (W H : ℤ) (hb : inBounds b W H)
    (hw : 50 ≤ b.width) (hh : 50 ≤ b.height) :
    (paddedBox b W H).left ≤ b.left ∧
    (paddedBox b W H).top ≤ b.top ∧
    b.left + b.width ≤ (paddedBox b W H).left + (paddedBox b W H).width ∧
    b.top + b.height ≤ (paddedBox b W H).top + (paddedBox b W H).height ∧
    (paddedBox b W H).left ≤ max 0 (b.left - 1) ∧
    (paddedBox b W H).top ≤ max 0 (b.top - 1) ∧
    min W (b.left + b.width + 1) ≤ (paddedBox b W H).left + (paddedBox b W H).width ∧
    min H (b.top + b.height + 1) ≤ (paddedBox b W H).top + (paddedBox b W H).height ∧
    b.width ≤ (paddedBox b W H).width ∧
    b.height ≤ (paddedBox b W H).height := by
  obtain ⟨h1, h2, h3, h4, h5, h6⟩ := hb
  have hwq : (50 : ℚ) ≤ (b.width : ℚ) := by exact_mod_cast hw
  have hhq : (50 : ℚ) ≤ (b.height : ℚ) := by exact_mod_cast hh
  have hpx : (5 : ℤ) ≤ jsRound ((b.width : ℚ) * (1 / 10)) :=
    le_jsRound (by push_cast; linarith)
  have hpy : (5 : ℤ) ≤ jsRound ((b.height : ℚ) * (1 / 10)) :=
    le_jsRound (by push_cast; linarith)
  unfold paddedBox
  dsimp only
  omega

/-- One-dimensional part of the suppression argument: along one axis, the
overlap of the candidate `[l2, l2 + w2)` with the padded interval
`[pl, pl + pw)` is at least the overlap with the original `[l1, l1 + w1)`,
and strictly larger as soon as the original overlap is positive but does
not cover the whole candidate — because the padded interval extends at
least one pixel beyond every side of the original that is not at the image
border, while the candidate lies inside the image. -/
theorem axis_facts (l1 w1 l2 w2 pl pw W : ℤ)
    (hl1 : 0 ≤ l1) (hr1 : l1 + w1 ≤ W) (hl2 : 0 ≤ l2) (hr2 : l2 + w2 ≤ W)
    (hw2 : 0 ≤ w2)
    (hpl : pl ≤ max 0 (l1 - 1)) (hpr : min W (l1 + w1 + 1) ≤ pl + pw) :
    max 0 (min (l1 + w1) (l2 + w2) - max l1 l2) ≤
      max 0 (min (pl + pw) (l2 + w2) - max pl l2) ∧
    (max 0 (min (l1 + w1) (l2 + w2) - max l1 l2) < w2 →
     0 < max 0 (min (l1 + w1) (l2 + w2) - max l1 l2) →
     max 0 (min (l1 + w1) (l2 + w2) - max l1 l2) + 1 ≤
       max 0 (min (pl + pw) (l2 + w2) - max pl l2)) ∧
    0 ≤ max 0 (min (l1 + w1) (l2 + w2) - max l1 l2) ∧
    0 ≤ max 0 (min (pl + pw) (l2 + w2) - max pl l2) ∧
    max 0 (min (l1 + w1) (l2 + w2) - max l1 l2) ≤ w2 := by
  omega

/-- Arithmetic core of the suppression argument, over bare integers.
`(l1, t1, w1, h1)` is an accepted box, `(pl, pt, pw, ph)` its recorded
padded version, `(l2, t2, w2, h2)` a later candidate; both boxes are inside
the `W × H` image and at least 50 px in each dimension, and they mutually
overlap in at least 70% of each of their areas.  Then the candidate's
overlap with the recorded padded area strictly exceeds 70% of the smaller
of the two compared areas, so the candidate is discarded. -/
theorem suppress_core
    (l1 t1 w1 h1 l2 t2 w2 h2 pl pt pw ph W H : ℤ)
    (hl1 : 0 ≤ l1) (ht1 : 0 ≤ t1) (hr1 : l1 + w1 ≤ W) (hB1 : t1 + h1 ≤ H)
    (hl2 : 0 ≤ l2) (ht2 : 0 ≤ t2) (hr2 : l2 + w2 ≤ W) (hB2 : t2 + h2 ≤ H)
    (hw1 : 50 ≤ w1) (hh1 : 50 ≤ h1) (hw2 : 50 ≤ w2) (hh2 : 50 ≤ h2)
    (hpl : pl ≤ max 0 (l1 - 1)) (hpt : pt ≤ max 0 (t1 - 1))
    (hpr : min W (l1 + w1 + 1) ≤ pl + pw) (hpb : min H (t1 + h1 + 1) ≤ pt + ph)
    (hpw : w1 ≤ pw) (hph : h1 ≤ ph)
    (hmut1 : 7 * (w1 * h1) ≤ 10 *
      (max 0 (min (l1 + w1) (l2 + w2) - max l1 l2) *
       max 0 (min (t1 + h1) (t2 + h2) - max t1 t2)))
    (hmut2 : 7 * (w2 * h2) ≤ 10 *
      (max 0 (min (l1 + w1) (l2 + w2) - max l1 l2) *
       max 0 (min (t1 + h1) (t2 + h2) - max t1 t2))) :
    7 * min (w2 * h2) (pw * ph) <
      10 * (max 0 (min (pl + pw) (l2 + w2) - max pl l2) *
            max 0 (min (pt + ph) (t2 + h2) - max pt t2)) := by
  obtain ⟨hxvge, hxgrow, hxo0, hxv0, hxow⟩ :=
    axis_facts l1 w1 l2 w2 pl pw W hl1 hr1 hl2 hr2 (by omega) hpl hpr
  obtain ⟨hyvge, hygrow, hyo0, hyv0, hyoh⟩ :=
    axis_facts t1 h1 t2 h2 pt ph H ht1 hB1 ht2 hB2 (by omega) hpt hpb
  set xo := max 0 (min (l1 + w1) (l2 + w2) - max l1 l2) with hxo
  set yo := max 0 (min (t1 + h1) (t2 + h2) - max t1 t2) with hyo
  set xv := max 0 (min (pl + pw) (l2 + w2) - max pl l2) with hxv
  set yv := max 0 (min (pt + ph) (t2 + h2) - max pt t2) with hyv
  clear_value xo yo xv yv
  have hA2 : 2500 ≤ w2 * h2 := by
    have h := mul_le_mul hw2 hh2 (by omega) (by omega)
    linarith
  have hopos : 0 < xo * yo := by linarith
  have hxopos : 0 < xo := by
    rcases lt_or_le 0 xo with h | h
    · exact h
    · exfalso
      have hz : xo = 0 := le_antisymm h hxo0
      rw [hz, zero_mul] at hopos
      exact lt_irrefl 0 hopos
  have hyopos : 0 < yo := by
    rcases lt_or_le 0 yo with h | h
    · exact h
    · exfalso
      have hz : yo = 0 := le_antisymm h hyo0
      rw [hz, mul_zero] at hopos
      exact lt_irrefl 0 hopos
  have hOVge : xo * yo ≤ xv * yv :=
    mul_le_mul hxvge hyvge hyo0 (le_trans hxo0 hxvge)
  rcases le_or_lt (w2 * h2) (pw * ph) with hmn | hmn
  · rw [min_eq_left hmn]
    rcases lt_or_eq_of_le hmut2 with hlt | heq
    · linarith
    · have ho_lt_A2 : xo * yo < w2 * h2 := by linarith
      have hsplit : xo < w2 ∨ yo < h2 := by
        by_contra hcon
        push_neg at hcon
        have hx : xo = w2 := le_antisymm hxow hcon.1
        have hy : yo = h2 := le_antisymm hyoh hcon.2
        rw [hx, hy] at ho_lt_A2
        exact lt_irrefl _ ho_lt_A2
      rcases hsplit with hx | hy
      · have hgrow : xo + 1 ≤ xv := hxgrow hx hxopos
        have hstep : (xo + 1) * yo ≤ xv * yv :=
          mul_le_mul hgrow hyvge hyo0 hxv0
        have hexp : (xo + 1) * yo = xo * yo + yo := by ring
        linarith
      · have hgrow : yo + 1 ≤ yv := hygrow hy hyopos
        have hstep : xo * (yo + 1) ≤ xv * yv :=
          mul_le_mul hxvge hgrow (by linarith) hxv0
        have hexp : xo * (yo + 1) = xo * yo + xo := by ring
        linarith
  · rw [min_eq_right (le_of_lt hmn)]
    linarith

/-- Box-level suppression: a candidate box that mutually overlaps an
already-accepted box in ≥ 70% of each area overlaps the accepted box's
recorded PADDED area by strictly more than 70% of the smaller compared
area. -/
theorem overlap_suppresses (b1 b2 : Box) (W H : ℤ)
    (hin1 : inBounds b1 W H) (hin2 : inBounds b2 W H)
    (hw1 : 50 ≤ b1.width) (hh1 : 50 ≤ b1.height)
    (hw2 : 50 ≤ b2.width) (hh2 : 50 ≤ b2.height)
    (hm1 : 7 * boxArea b1 ≤ 10 * overlapArea b1 b2)
    (hm2 : 7 * boxArea b2 ≤ 10 * overlapArea b1 b2) :
    7 * min (boxArea b2) (boxArea (paddedBox b1 W H)) <
      10 * overlapArea (paddedBox b1 W H) b2 := by
  have hfacts := paddedBox_facts b1 W H hin1 hw1 hh1
  obtain ⟨f1, f2, f3, f4, f5, f6, f7, f8, f9, f10⟩ := hfacts
  obtain ⟨q1, q2, q3, q4, q5, q6⟩ := hin1
  obtain ⟨p1, p2, p3, p4, p5, p6⟩ := hin2
  simp only [boxArea, overlapArea] at hm1 hm2 ⊢
  exact suppress_core b1.left b1.top b1.width b1.height
    b2.left b2.top b2.width b2.height
    (paddedBox b1 W H).left (paddedBox b1 W H).top
    (paddedBox b1 W H).width (paddedBox b1 W H).height W H
    q1 q2 q5 q6 p1 p2 p5 p6 hw1 hh1 hw2 hh2
    f5 f6 f7 f8 f9 f10 hm1 hm2

/-- A candidate that passes all pre-overlap filters and does not overlap any
recorded area beyond the threshold is accepted: its padded box is recorded
and, when the crop succeeds, its photo is emitted. -/
theorem photoStep_accepts (W H : ℤ) (cropOk : Nat → Bool) (s : PhotoState)
    (idx : Nat) (ann : ObjAnn) (hp : passesPreFilters W H ann)
    (hov : overlapsExisting s.areas (objectBox ann.verts W H) = false) :
    photoStep W H cropOk s idx ann =
      { areas := s.areas ++ [paddedBox (objectBox ann.verts W H) W H],
        accepted := s.accepted ++ [idx],
        photos := if cropOk idx = true then s.photos ++ [idx] else s.photos } := by
  obtain ⟨g1, g2, g3, g4⟩ := hp
  simp only [photoStep]
  rw [if_neg g1, if_neg g2, if_neg g3, if_neg g4, if_neg (by simp [hov])]

/-- C6: overlap suppression.  First conjunct (the rule): any candidate whose
intersection with some already-recorded area exceeds 70% of the smaller of
the two areas is discarded — the loop state is unchanged, whatever the
crop-validation oracle says.  Second conjunct (the pairwise scenario): for
two candidate photo annotations that both pass the size and aspect-ratio
filters, whose boxes mutually overlap in at least 70% of each box's area,
processing them in one image retains exactly the first: `accepted = [0]`.
The second candidate is compared against the PADDED recorded area of the
first, which only enlarges the intersection, so the 70% threshold is
strictly exceeded even at exact 70% mutual overlap. -/
theorem C6_overlap_suppression :
    (∀ (W H : ℤ) (cropOk : Nat → Bool) (s : PhotoState) (idx : Nat) (ann : ObjAnn),
      (∃ area ∈ s.areas,
        (7 : ℚ) / 10 * min ((boxArea (objectBox ann.verts W H) : ℚ))
            ((boxArea area : ℚ)) <
          ((overlapArea area (objectBox ann.verts W H) : ℚ))) →
      photoStep W H cropOk s idx ann = s) ∧
    (∀ (W H : ℤ) (cropOk : Nat → Bool) (a1 a2 : ObjAnn),
      0 ≤ W → 0 ≤ H → passesPreFilters W H a1 → passesPreFilters W H a2 →
      (7 : ℚ) / 10 * (boxArea (objectBox a1.verts W H) : ℚ) ≤
        (overlapArea (objectBox a1.verts W H) (objectBox a2.verts W H) : ℚ) →
      (7 : ℚ) / 10 * (boxArea (objectBox a2.verts W H) : ℚ) ≤
        (overlapArea (objectBox a1.verts W H) (objectBox a2.verts W H) : ℚ) →
      (photoLoop W H cropOk [a1, a2]).accepted = [0]) := by
  constructor
  · exact photoStep_discards
  · intro W H cropOk a1 a2 hW hH hp1 hp2 hm1 hm2
    obtain ⟨g1, g2, g3, g4⟩ := hp1
    obtain ⟨k1, k2, k3, k4⟩ := hp2
    have hne1 : a1.verts ≠ [] := fun h => g1 (by simp [h])
    have hne2 : a2.verts ≠ [] := fun h => k1 (by simp [h])
    have hin1 := objectBox_inBounds a1.verts W H hne1 hW hH
    have hin2 := objectBox_inBounds a2.verts W H hne2 hW hH
    push_neg at g3 k3
    have hm1z := (scale_le_iff (boxArea (objectBox a1.verts W H))
      (overlapArea (objectBox a1.verts W H) (objectBox a2.verts W H))).mp hm1
    have hm2z := (scale_le_iff (boxArea (objectBox a2.verts W H))
      (overlapArea (objectBox a1.verts W H) (objectBox a2.verts W H))).mp hm2
    have hkey := overlap_suppresses (objectBox a1.verts W H)
      (objectBox a2.verts W H) W H hin1 hin2 g3.1 g3.2 k3.1 k3.2 hm1z hm2z
    have hkeyQ : (7 : ℚ) / 10 *
        min ((boxArea (objectBox a2.verts W H) : ℚ))
          ((boxArea (paddedBox (objectBox a1.verts W H) W H) : ℚ)) <
        ((overlapArea (paddedBox (objectBox a1.verts W H) W H)
          (objectBox a2.verts W H) : ℚ)) := by
      have h2 := (scale_lt_iff
        (min (boxArea (objectBox a2.verts W H))
          (boxArea (paddedBox (objectBox a1.verts W H) W H)))
        (overlapArea (paddedBox (objectBox a1.verts W H) W H)
          (objectBox a2.verts W H))).mpr hkey
      rwa [Int.cast_min] at h2
    have hs1 := photoStep_accepts W H cropOk ⟨[], [], []⟩ 0 a1
      ⟨g1, g2, by omega, g4⟩ rfl
    have hstate : photoLoop W H cropOk [a1, a2] =
        photoStep W H cropOk
          { areas := [paddedBox (objectBox a1.verts W H) W H],
            accepted := [0],
            photos := if cropOk 0 = true then [0] else [] } 1 a2 := by
      show photoStep W H cropOk (photoStep W H cropOk ⟨[], [], []⟩ 0 a1) 1 a2 = _
      rw [hs1]
      simp
    have hs2 := photoStep_discards W H cropOk
      { areas := [paddedBox (objectBox a1.verts W H) W H],
        accepted := [0],
        photos := if cropOk 0 = true then [0] else [] } 1 a2
      ⟨paddedBox (objectBox a1.verts W H) W H, by simp, hkeyQ⟩
    rw [hstate, hs2]

/-- Witness for C6 at concrete inputs on a 1000×1000 page.  Part 1: a
candidate box (80, 50, 100×100) overlapping the recorded area
(40, 40, 120×120) in 8000 px² (more than 70% of the smaller area 10000) is
discarded.  Part 2: candidates (50, 50, 100×100) and (80, 50, 100×100) with
exactly 70% mutual overlap (7000 of 10000 each) — only the first is
retained. -/
theorem C6_overlap_suppression_witness :
    photoStep 1000 1000 (fun _ => true)
        ⟨[⟨40, 40, 120, 120⟩], [0], [0]⟩ 1
        ⟨[(2/25, 1/20), (9/50, 1/20), (9/50, 3/20)], ("Person"), 9/10⟩ =
      ⟨[⟨40, 40, 120, 120⟩], [0], [0]⟩ ∧
    (photoLoop 1000 1000 (fun _ => true)
        [⟨[(1/20, 1/20), (3/20, 1/20), (3/20, 3/20)], ("Person"), 9/10⟩,
         ⟨[(2/25, 1/20), (9/50, 1/20), (9/50, 3/20)], ("Person"), 9/10⟩]).accepted
      = [0] := by
  constructor
  · exact C6_overlap_suppression.1 1000 1000 (fun _ => true)
      ⟨[⟨40, 40, 120, 120⟩], [0], [0]⟩ 1
      ⟨[(2/25, 1/20), (9/50, 1/20), (9/50, 3/20)], ("Person"), 9/10⟩
      ⟨⟨40, 40, 120, 120⟩, by simp, by
        norm_num [objectBox, listMinQ, listMaxQ, jsRound, boxArea, overlapArea]⟩
  · exact C6_overlap_suppression.2 1000 1000 (fun _ => true)
      ⟨[(1/20, 1/20), (3/20, 1/20), (3/20, 3/20)], ("Person"), 9/10⟩
      ⟨[(2/25, 1/20), (9/50, 1/20), (9/50, 3/20)], ("Person"), 9/10⟩
      (by norm_num) (by norm_num)
      ⟨by norm_num, fun hc => absurd hc.2 (by norm_num),
        by norm_num [objectBox, listMinQ, listMaxQ, jsRound],
        by norm_num [objectBox, listMinQ, listMaxQ, jsRound]⟩
      ⟨by norm_num, fun hc => absurd hc.2 (by norm_num),
        by norm_num [objectBox, listMinQ, listMaxQ, jsRound],
        by norm_num [objectBox, listMinQ, listMaxQ, jsRound]⟩
      (by norm_num [objectBox, listMinQ, listMaxQ, jsRound, boxArea, overlapArea])
      (by norm_num [objectBox, listMinQ, listMaxQ, jsRound, boxArea, overlapArea])

/-! ## Orchestrator (`PdfService.convertAndSummarize`)

Page validation/dedup, batch processing and summary assembly
(pdf.service.ts:639-778).  External effects (image validity, content
hashes, OCR+AI results, detected features) are oracles; the verified part
is the collection, dedup, batching and assembly logic. -/

/-- One rendered page as seen by the orchestrator: `idx` is its position in
the sorted `pages` listing, `name` its file name, `hash` the
`getImageHash` digest, `valid` the `isValidImage` verdict. -/
structure PageFile where
  idx : Nat
  name : String
  hash : Nat
  valid : Bool
deriving DecidableEq

/-- The concurrent validation/dedup prephase (pdf.service.ts:690-706).
Each page's async callback, after its awaits, runs the synchronous block
`if (!valid) return; if (pageHashes.has(h)) return; pageHashes.add(h);
validPages.push(...)`.  The `has`/`add`/`push` sequence contains no await,
so it is atomic; `ordered` lists the pages in the order those blocks run —
the COMPLETION order of the concurrent validations, which need not be the
listing order. -/
def collectValidPagesGo (seen : List Nat) : List PageFile → List PageFile
  | [] => []
  | p :: rest =>
    if p.valid = true then
      if p.hash ∈ seen then collectValidPagesGo seen rest
      else p :: collectValidPagesGo (p.hash :: seen) rest
    else collectValidPagesGo seen rest

def collectValidPages (ordered : List PageFile) : List PageFile :=
  collectValidPagesGo [] ordered

/-- The `validPages.slice(i, i + n)` batching, fuelled by the list length so
that it is structurally recursive (the code guarantees `n ≥ 1` via
`Math.max(1, ...)`). -/
def chunkListGo {α : Type} (n : Nat) : Nat → List α → List (List α)
  | 0, _ => []
  | _, [] => []
  | fuel + 1, x :: xs => (x :: xs).take n :: chunkListGo n fuel ((x :: xs).drop n)

def chunkList {α : Type} (n : Nat) (l : List α) : List (List α) :=
  chunkListGo n l.length l

/-- The public result record (pdf.service.ts:59-68). -/
structure PageSummary where
  imageUrl : String
  title : String
  description : String
  embeddedImages : List String
  logos : List String
  photos : List String
  faces : List String
  scenes : List String
deriving DecidableEq

structure FeatureSet where
  logos : List String
  photos : List String
  faces : List String
  scenes : List String
deriving DecidableEq

/-- Model of `detectAndCropLogos` at the interface level: the three detection stages
produce their crop lists (oracles here); `faces` is initialised to the
empty array — "Keep empty array for backwards compatibility"
(pdf.service.ts:813) — and no statement of the function ever pushes to it,
so the returned `faces` is always `[]`. -/
def detectAndCrop (logos photos scenes : List String) : FeatureSet :=
  { logos := logos, photos := photos, faces := [], scenes := scenes }

/-- Per-page processing inside a batch (pdf.service.ts:722-754): text
analysis (`summarize p.idx`, `none` when OCR found no text or analysis
failed — the page is dropped) runs alongside feature detection; on success
the PageSummary is assembled, attaching the run's embedded-image references
only at listing index 0 (`index === 0 ? embeddedImages : []`). -/
def buildSummary (embeddedImages : List String) (fileHash : String)
    (summarize : Nat → Option (String × String))
    (stages : Nat → List String × List String × List String)
    (p : PageFile) : Option PageSummary :=
  match summarize p.idx with
  | none => none
  | some td =>
    let f := detectAndCrop (stages p.idx).1 (stages p.idx).2.1 (stages p.idx).2.2
    some { imageUrl := ("/files/") ++ fileHash ++ ("/") ++ p.name,
           title := td.1, description := td.2,
           embeddedImages := if p.idx = 0 then embeddedImages else [],
           logos := f.logos, photos := f.photos, faces := f.faces,
           scenes := f.scenes }

/-- The page-processing phase of `convertAndSummarize`
(pdf.service.ts:686-777): validate/dedup pages in completion order, batch
them `maxConcurrentPages` at a time, process each batch with `Promise.all`
(which preserves the batch's internal order), drop pages whose text
analysis returned null, and push the batch results in order. -/
def convertAndSummarize (maxConcurrentPages : Nat) (embeddedImages : List String)
    (fileHash : String) (ordered : List PageFile)
    (summarize : Nat → Option (String × String))
    (stages : Nat → List String × List String × List String) :
    List PageSummary :=
  ((chunkList maxConcurrentPages (collectValidPages ordered)).map
    (fun batch => batch.filterMap
      (buildSummary embeddedImages fileHash summarize stages))).flatten

theorem chunkListGo_flatten {α : Type} (n : Nat) (hn : 0 < n) :
    ∀ (fuel : Nat) (l : List α), l.length ≤ fuel →
      (chunkListGo n fuel l).flatten = l := by
  intro fuel
  induction fuel with
  | zero =>
    intro l hl
    have : l = [] := List.length_eq_zero.mp (Nat.le_zero.mp hl)
    rw [this]
    rfl
  | succ f ih =>
    intro l hl
    cases l with
    | nil => rfl
    | cons x xs =>
      have hlen : ((x :: xs).drop n).length ≤ f := by
        simp only [List.length_drop, List.length_cons] at hl ⊢
        omega
      rw [chunkListGo, List.flatten_cons, ih _ hlen, List.take_append_drop]

theorem chunkList_flatten {α : Type} (n : Nat) (hn : 0 < n) (l : List α) :
    (chunkList n l).flatten = l :=
  chunkListGo_flatten n hn l.length l le_rfl

theorem flatten_map_filterMap {α β : Type} (f : α → Option β)
    (L : List (List α)) :
    (L.map (fun batch => batch.filterMap f)).flatten = L.flatten.filterMap f := by
  induction L with
  | nil => rfl
  | cons a t ih =>
    rw [List.map_cons, List.flatten_cons, ih, List.flatten_cons,
      List.filterMap_append]

theorem collectValidPagesGo_sublist (l : List PageFile) :
    ∀ seen, List.Sublist (collectValidPagesGo seen l) l := by
  induction l with
  | nil =>
    intro seen
    simp [collectValidPagesGo]
  | cons p rest ih =>
    intro seen
    rw [collectValidPagesGo]
    split_ifs with h1 h2
    · exact (ih seen).trans (List.sublist_cons_self p rest)
    · exact List.Sublist.cons₂ p (ih _)
    · exact (ih seen).trans (List.sublist_cons_self p rest)

theorem collectValidPagesGo_not_seen (l : List PageFile) :
    ∀ seen p, p ∈ collectValidPagesGo seen l → p.hash ∉ seen := by
  induction l with
  | nil =>
    intro seen p hp
    simp [collectValidPagesGo] at hp
  | cons q rest ih =>
    intro seen p hp
    rw [collectValidPagesGo] at hp
    split_ifs at hp with h1 h2
    · exact ih seen p hp
    · rcases List.mem_cons.mp hp with rfl | hp2
      · exact h2
      · intro hmem
        exact ih _ p hp2 (List.mem_cons_of_mem _ hmem)
    · exact ih seen p hp

theorem collectValidPagesGo_hash_nodup (l : List PageFile) :
    ∀ seen, ((collectValidPagesGo seen l).map (fun p => p.hash)).Nodup := by
  induction l with
  | nil =>
    intro seen
    simp [collectValidPagesGo]
  | cons q rest ih =>
    intro seen
    rw [collectValidPagesGo]
    split_ifs with h1 h2
    · exact ih seen
    · rw [List.map_cons, List.nodup_cons]
      refine ⟨?_, ih _⟩
      intro hmem
      obtain ⟨p, hp, hph⟩ := List.mem_map.mp hmem
      have hns := collectValidPagesGo_not_seen rest (q.hash :: seen) p hp
      exact hns (by rw [hph]; exact List.mem_cons_self _ _)
    · exact ih seen

def smConst : Nat → Option (String × String) := fun _ => some (("t"), ("d"))

def stConst : Nat → List String × List String × List String :=
  fun _ => ([], [], [])

def pg0 : PageFile := { idx := 0, name := ("page-1.png"), hash := 10, valid := true }

def pg1 : PageFile := { idx := 1, name := ("page-2.png"), hash := 11, valid := true }

def pg2 : PageFile := { idx := 2, name := ("page-3.png"), hash := 12, valid := true }

/-- C7 counterexample: two valid, hash-distinct pages whose concurrent
validations complete in reverse listing order.  `validPages` is filled in
completion order and never re-sorted, so the final sequence lists page
index 1 before page index 0 — the summaries do NOT preserve source page
order under adversarial completion order. -/
theorem C7_counterexample :
    (convertAndSummarize 3 [] ("h") [pg1, pg0] smConst stConst).map
        (fun s => s.imageUrl) =
      [("/files/h/page-2.png"), ("/files/h/page-1.png")] ∧
    (collectValidPages [pg1, pg0]).map (fun p => p.idx) = [1, 0] := by
  exact ⟨rfl, rfl⟩

/-- C7 (amended): the output summaries follow the order in which the pages
were admitted into `validPages` — the completion order of the concurrent
validations — not the source page order.  Precisely: with a positive batch
size the batching/assembly is order-preserving (the output equals the
per-page results of `validPages` in order), `validPages` is a subsequence
of the completion order, and hence the summaries are in source-index order
whenever the validations complete in source order (in particular in a
sequential execution), but not in general. -/
theorem C7_completion_order (maxC : Nat) (embedded : List String)
    (fileHash : String) (ordered : List PageFile)
    (summarize : Nat → Option (String × String))
    (stages : Nat → List String × List String × List String)
    (hn : 0 < maxC) :
    convertAndSummarize maxC embedded fileHash ordered summarize stages =
      (collectValidPages ordered).filterMap
        (buildSummary embedded fileHash summarize stages) ∧
    List.Sublist (collectValidPages ordered) ordered ∧
    (List.Sorted (· ≤ ·) (ordered.map (fun p => p.idx)) →
      List.Sorted (· ≤ ·) ((collectValidPages ordered).map (fun p => p.idx))) := by
  refine ⟨?_, collectValidPagesGo_sublist ordered [], ?_⟩
  · unfold convertAndSummarize
    rw [flatten_map_filterMap, chunkList_flatten maxC hn]
  · intro hs
    exact hs.sublist ((collectValidPagesGo_sublist ordered []).map (fun p => p.idx))

/-- Witness for the amended C7 theorem at concrete inputs: with the pages
validated in listing order, the output equals the in-order per-page
results, the valid pages are a subsequence, and the indices stay sorted. -/
theorem C7_completion_order_witness :
    (convertAndSummarize 3 [] ("h") [pg0, pg1] smConst stConst =
      (collectValidPages [pg0, pg1]).filterMap
        (buildSummary [] ("h") smConst stConst)) ∧
    List.Sublist (collectValidPages [pg0, pg1]) [pg0, pg1] ∧
    (List.Sorted (· ≤ ·) ([pg0, pg1].map (fun p => p.idx)) →
      List.Sorted (· ≤ ·) ((collectValidPages [pg0, pg1]).map (fun p => p.idx))) :=
  C7_completion_order 3 [] ("h") [pg0, pg1] smConst stConst (by decide)

/-! ## Embedded-asset extraction (`PdfService.extractEmbeddedImages`) -/

/-- One file found in the `embedded/` directory (the `readdirSync` listing
is already filtered to png/jpg/jp2/tiff/svg extensions).  External
measurements are oracle fields. -/
structure XFile where
  name : String
  /-- the page-artifact test startsWith and the page-number regex (the regex is
  modelled as an oracle since the embedding has no regexes) -/
  isPageArtifact : Bool
  /-- the `/\.svg$/i` extension test; a non-SVG listing entry is a bitmap -/
  isSvg : Bool
  /-- the `getImageHash` digest of the file contents -/
  hash : Nat
  width : ℤ
  height : ℤ
  /-- the `checkImagePixelDensity` oracle -/
  density : ℚ
  /-- the `isValidImage` oracle -/
  valid : Bool
deriving DecidableEq

/-- Per-file processing of `extractEmbeddedImages` (pdf.service.ts:519-592),
folded over the files in the order their post-hash synchronous blocks run
(batches of 10 run concurrently, but the `has`/`add` pair is one
synchronous block, so any interleaving is some such order).  Skip page
artifacts; skip files whose content hash was already seen and record the
hash BEFORE any further filtering; accept SVGs outright; size-check
bitmaps, drop square ≥ 500 px low-density page backgrounds, then require
`isValidImage`.  Returns the accepted files in order (their URL is
`/files/<hash>/embedded/<name>`).  `0.95`, `1.05`, `0.1` are exact rational
literals here. -/
def extractGo (seen : List Nat) : List XFile → List XFile
  | [] => []
  | f :: rest =>
    if f.isPageArtifact = true then extractGo seen rest
    else if f.hash ∈ seen then extractGo seen rest
    else
      if f.isSvg = true then f :: extractGo (f.hash :: seen) rest
      else if f.width < 50 ∨ f.height < 50 then extractGo (f.hash :: seen) rest
      else if ((0.95 : ℚ) < (f.width : ℚ) / (f.height : ℚ) ∧
          (f.width : ℚ) / (f.height : ℚ) < (1.05 : ℚ) ∧
          500 < f.width ∧ 500 < f.height) ∧ f.density < (0.1 : ℚ) then
        extractGo (f.hash :: seen) rest
      else if f.valid = true then f :: extractGo (f.hash :: seen) rest
      else extractGo (f.hash :: seen) rest

def extractEmbeddedImages (files : List XFile) : List XFile :=
  extractGo [] files

theorem extractGo_not_seen (l : List XFile) :
    ∀ seen f, f ∈ extractGo seen l → f.hash ∉ seen := by
  induction l with
  | nil =>
    intro seen f hf
    simp [extractGo] at hf
  | cons g rest ih =>
    intro seen f hf
    rw [extractGo] at hf
    split_ifs at hf with h1 h2 h3 h4 h5 h6
    · exact ih seen f hf
    · exact ih seen f hf
    · rcases List.mem_cons.mp hf with rfl | hf2
      · exact h2
      · intro hmem
        exact ih _ f hf2 (List.mem_cons_of_mem _ hmem)
    · intro hmem
      exact ih _ f hf (List.mem_cons_of_mem _ hmem)
    · intro hmem
      exact ih _ f hf (List.mem_cons_of_mem _ hmem)
    · rcases List.mem_cons.mp hf with rfl | hf2
      · exact h2
      · intro hmem
        exact ih _ f hf2 (List.mem_cons_of_mem _ hmem)
    · intro hmem
      exact ih _ f hf (List.mem_cons_of_mem _ hmem)

theorem extractGo_hash_nodup (l : List XFile) :
    ∀ seen, ((extractGo seen l).map (fun f => f.hash)).Nodup := by
  induction l with
  | nil =>
    intro seen
    simp [extractGo]
  | cons g rest ih =>
    intro seen
    rw [extractGo]
    split_ifs with h1 h2 h3 h4 h5 h6
    · exact ih seen
    · exact ih seen
    · rw [List.map_cons, List.nodup_cons]
      refine ⟨?_, ih _⟩
      intro hmem
      obtain ⟨f, hf, hfh⟩ := List.mem_map.mp hmem
      have hns := extractGo_not_seen rest (g.hash :: seen) f hf
      exact hns (by rw [hfh]; exact List.mem_cons_self _ _)
    · exact ih _
    · exact ih _
    · rw [List.map_cons, List.nodup_cons]
      refine ⟨?_, ih _⟩
      intro hmem
      obtain ⟨f, hf, hfh⟩ := List.mem_map.mp hmem
      have hns := extractGo_not_seen rest (g.hash :: seen) f hf
      exact hns (by rw [hfh]; exact List.mem_cons_self _ _)
    · exact ih _

/-- C8: content-hash dedup.  In every run and under every completion order
of the concurrent per-file (resp. per-page) processing, no two accepted
embedded assets share a content hash, and no two pages admitted into the
valid-page set share an image content hash: a later file or page whose hash
has already been seen is skipped before any acceptance path. -/
theorem C8_dedup :
    (∀ files : List XFile,
      ((extractEmbeddedImages files).map (fun f => f.hash)).Nodup) ∧
    (∀ ordered : List PageFile,
      ((collectValidPages ordered).map (fun p => p.hash)).Nodup) :=
  ⟨fun files => extractGo_hash_nodup files [],
   fun ordered => collectValidPagesGo_hash_nodup ordered []⟩

/-! ## C9 and C10: summary assembly fields -/

theorem buildSummary_embedded (embedded : List String) (fileHash : String)
    (summarize : Nat → Option (String × String))
    (stages : Nat → List String × List String × List String)
    (p : PageFile) (s : PageSummary)
    (h : buildSummary embedded fileHash summarize stages p = some s) :
    s.embeddedImages = if p.idx = 0 then embedded else [] := by
  unfold buildSummary at h
  cases hsm : summarize p.idx with
  | none =>
    rw [hsm] at h
    exact Option.noConfusion h
  | some td =>
    rw [hsm] at h
    cases h
    rfl

/-- C9 counterexample: a 3-page document with one embedded image, where the
concurrent page validations complete in the order page 1, page 0, page 2.
The output still has 3 summaries and only page index 0 carries the
embedded reference — but that summary is `summaries[1]`, not
`summaries[0]`: `summaries[0].embeddedImages` is empty, refuting the
claimed scenario `summary[0].embeddedImages has length 1`. -/
theorem C9_counterexample :
    (convertAndSummarize 3 [("e1")] ("h") [pg1, pg0, pg2] smConst stConst).map
        (fun s => s.embeddedImages) = [[], [("e1")], []] ∧
    ((convertAndSummarize 3 [("e1")] ("h") [pg1, pg0, pg2] smConst stConst).head?).map
        (fun s => s.embeddedImages.length) = some 0 := by
  exact ⟨rfl, rfl⟩

/-- C9 (amended): each produced PageSummary carries the run's full
embedded-image list exactly when its page's rendered (listing) index is 0,
and the empty list otherwise; consequently, in the 3-page scenario with one
embedded image the output has 3 summaries of which only the one for page
index 0 — which is `summaries[0]` when validation completes in listing
order — has the single embedded reference. -/
theorem C9_embedded_on_page_zero :
    (∀ (embedded : List String) (fileHash : String)
        (summarize : Nat → Option (String × String))
        (stages : Nat → List String × List String × List String)
        (p : PageFile) (s : PageSummary),
      buildSummary embedded fileHash summarize stages p = some s →
      s.embeddedImages = if p.idx = 0 then embedded else []) ∧
    (convertAndSummarize 3 [("e1")] ("h") [pg0, pg1, pg2] smConst stConst).map
        (fun s => s.embeddedImages) = [[("e1")], [], []] :=
  ⟨buildSummary_embedded, rfl⟩

/-- Witness for the amended C9 theorem, applying its first conjunct at a
concrete page of index 0 and at one of index 2. -/
theorem C9_embedded_on_page_zero_witness :
    (({ imageUrl := ("/files/h/page-1.png"), title := ("t"),
        description := ("d"), embeddedImages := [("e1")], logos := [],
        photos := [], faces := [], scenes := [] } : PageSummary).embeddedImages =
      if pg0.idx = 0 then [("e1")] else []) ∧
    (({ imageUrl := ("/files/h/page-3.png"), title := ("t"),
        description := ("d"), embeddedImages := [], logos := [],
        photos := [], faces := [], scenes := [] } : PageSummary).embeddedImages =
      if pg2.idx = 0 then [("e1")] else []) :=
  ⟨C9_embedded_on_page_zero.1 [("e1")] ("h") smConst stConst pg0 _ rfl,
   C9_embedded_on_page_zero.1 [("e1")] ("h") smConst stConst pg2 _ rfl⟩

/-- C10: the public PageSummary type exposes a `faces` array; the pipeline
performs no face detection ("Face detection section removed to improve
performance"), `detectAndCropLogos` keeps `faces` as the empty array it
initialises, and the orchestrator copies it through — so every PageSummary
returned by `convertAndSummarize` has `faces = []`. -/
theorem C10_faces_empty (maxC : Nat) (embedded : List String)
    (fileHash : String) (ordered : List PageFile)
    (summarize : Nat → Option (String × String))
    (stages : Nat → List String × List String × List String) :
    ∀ s ∈ convertAndSummarize maxC embedded fileHash ordered summarize stages,
      s.faces = [] := by
  intro s hs
  unfold convertAndSummarize at hs
  rw [List.mem_flatten] at hs
  obtain ⟨batchOut, hbo, hsbo⟩ := hs
  rw [List.mem_map] at hbo
  obtain ⟨batch, hb, rfl⟩ := hbo
  rw [List.mem_filterMap] at hsbo
  obtain ⟨p, hp, hps⟩ := hsbo
  unfold buildSummary at hps
  cases hsm : summarize p.idx with
  | none =>
    rw [hsm] at hps
    exact Option.noConfusion hps
  | some td =>
    rw [hsm] at hps
    cases hps
    rfl

/-- Witness for C10 at a concrete run. -/
theorem C10_faces_empty_witness :
    ({ imageUrl := ("/files/h/page-1.png"), title := ("t"),
       description := ("d"), embeddedImages := [], logos := [],
       photos := [], faces := [], scenes := [] } : PageSummary).faces = [] :=
  C10_faces_empty 3 [] ("h") [pg0] smConst stConst
    { imageUrl := ("/files/h/page-1.png"), title := ("t"),
      description := ("d"), embeddedImages := [], logos := [],
      photos := [], faces := [], scenes := [] }
    (by decide)

end PdfExtract
